import Mathlib

/-!
Verification of the timeline-stamp photo synchroniser
(src/timeline_stamp.py) against its specification.

The embedding models:
* absolute instants as integers counting microseconds since the epoch
  (the resolution of Python datetime / timedelta arithmetic);
* Python floats as rational numbers;
* Python strings as Lean strings, converted to lists of characters for
  the character-level processing done by the coordinate parser;
* the external collaborators (ISO timestamp parsing via dateutil,
  timezone lookup via timezonefinder / pytz, the piexif codec) at their
  interface boundary: an already-parsed optional instant stands for a
  dateutil parse result, a function from instants to offsets and local
  time strings stands for a pytz timezone object, and a record of the
  touched tag slots stands for the piexif tag dictionary;
* bisect.bisect_left by its documented contract on a sorted list: the
  index of the first element that is not less than the probe.

Stateful accumulation (the tf_points list, the processed and skipped
counters) is modelled by explicit list building and fold state.
-/

namespace TimelineStamp

/-- Mirror of the TimelinePoint dataclass: a UTC instant in microseconds
plus a latitude and longitude in degrees. -/
structure TimelinePoint where
  time_utc : Int
  lat : ℚ
  lon : ℚ
deriving DecidableEq, Repr

/-- Contract of bisect.bisect_left on a list sorted ascending: the number
of leading elements strictly below the probe, i.e. the leftmost insertion
index. -/
def bisect_left (keys : List Int) (x : Int) : Nat :=
  match keys with
  | [] => 0
  | k :: ks => if k < x then bisect_left ks x + 1 else 0

/-- Python min over the running candidates: keep the incumbent unless the
challenger has a strictly smaller key, which is exactly how min scans a
list (the first minimum wins). The key is the absolute time difference to
the probe, in microseconds. -/
def nearer (ts : Int) (best q : TimelinePoint) : TimelinePoint :=
  if (q.time_utc - ts).natAbs < (best.time_utc - ts).natAbs then q else best

/-- Result of min(candidates, key) for the nonempty candidate list
c :: cs. -/
def minCand (ts : Int) (c : TimelinePoint) (cs : List TimelinePoint) : TimelinePoint :=
  cs.foldl (nearer ts) c

/-- The candidates list built by find_nearest_timeline_point: the element
at the insertion index when it exists, then the element immediately
before it when it exists, in that order. -/
def candidateList (points : List TimelinePoint) (ts : Int) : List TimelinePoint :=
  let idx := bisect_left (points.map (fun p => p.time_utc)) ts
  (points[idx]?).toList ++ (if 0 < idx then (points[idx - 1]?).toList else [])

/-- Mirror of find_nearest_timeline_point: bisect for the insertion
index, collect up to two neighbouring candidates, return None when there
are none, otherwise the candidate of minimal absolute time difference. -/
def find_nearest_timeline_point (points : List TimelinePoint) (ts : Int) : Option TimelinePoint :=
  match candidateList points ts with
  | [] => none
  | c :: cs => some (minCand ts c cs)

/-- Digit run to a natural number, as Python int parsing of a digit
string. -/
def digitsVal (cs : List Char) : Nat :=
  cs.foldl (fun n c => 10 * n + (c.toNat - 48)) 0

/-- Model of the Python float constructor restricted to the plain decimal
notation that coordinate strings use: an optional sign, then digits with
an optional fractional part. Returns none exactly when the text is not a
number of this shape, modelling the ValueError raised by float. -/
def parseFloat (cs : List Char) : Option ℚ :=
  let signed : ℚ × List Char :=
    match cs with
    | '+' :: t => (1, t)
    | '-' :: t => (-1, t)
    | t => (1, t)
  let sign := signed.1
  let body := signed.2
  let intPart := body.takeWhile Char.isDigit
  let rest := body.drop intPart.length
  match rest with
  | [] =>
    if intPart.isEmpty then none
    else some (sign * (digitsVal intPart : ℚ))
  | '.' :: frac =>
    if frac.all Char.isDigit && (!intPart.isEmpty || !frac.isEmpty) then
      some (sign * ((digitsVal intPart : ℚ) + (digitsVal frac : ℚ) / (10 : ℚ) ^ frac.length))
    else none
  | _ => none

/-- Python str.strip on a character list: drop unicode whitespace from
both ends. -/
def trimChars (cs : List Char) : List Char :=
  ((cs.dropWhile Char.isWhitespace).reverse.dropWhile Char.isWhitespace).reverse

/-- Python str.split on a comma: the comma-separated groups, keeping
empty groups, never returning an empty list of groups. -/
def splitOnComma : List Char → List (List Char)
  | [] => [[]]
  | c :: cs =>
    if c = ',' then [] :: splitOnComma cs
    else
      match splitOnComma cs with
      | [] => [c] :: []
      | g :: gs => (c :: g) :: gs

/-- Mirror of _parse_latlng: delete every degree sign, strip whitespace,
split on commas, require exactly two groups, strip each group and parse
both as floats. A none models the ValueError or unpacking error that the
per-segment handler catches. -/
def _parse_latlng (s : String) : Option (ℚ × ℚ) :=
  let cleaned := trimChars (s.toList.filter (fun c => c ≠ '°'))
  match splitOnComma cleaned with
  | [a, b] =>
    match parseFloat (trimChars a), parseFloat (trimChars b) with
    | some la, some lo => some (la, lo)
    | _, _ => none
  | _ => none

/-- One entry of a timelinePath segment. The time field carries the
dateutil isoparse result already converted to UTC microseconds; none
models a parse failure raising inside the segment loop. -/
structure PathEntry where
  point : String
  time : Option Int
deriving DecidableEq, Repr

/-- The pieces of a visit segment the code reads. A none latLng models a
missing key raising KeyError or TypeError inside the inner guard; a none
start or end time models an isoparse failure. -/
structure VisitSeg where
  latLng : Option String
  startTime : Option Int
  endTime : Option Int
deriving DecidableEq, Repr

/-- A semantic segment as the loader distinguishes them: one with a
timelinePath key, one with a visit key, or anything else, which the
loader silently ignores. -/
inductive Segment where
  | path (entries : List PathEntry)
  | visit (v : VisitSeg)
  | other
deriving DecidableEq, Repr

/-- Mirror of _add_point_from_path_entry: parse the coordinate string,
then the timestamp; a none means the Python call raised. -/
def _add_point_from_path_entry (e : PathEntry) : Option TimelinePoint :=
  match _parse_latlng e.point, e.time with
  | some (la, lo), some t => some ⟨t, la, lo⟩
  | _, _ => none

/-- The timelinePath loop under the per-segment try block: entries are
appended in order until one raises, which aborts the rest of the segment
while keeping the points already appended. -/
def processPathEntries : List PathEntry → List TimelinePoint
  | [] => []
  | e :: es =>
    match _add_point_from_path_entry e with
    | some p => p :: processPathEntries es
    | none => []

/-- Python timedelta division by two at microsecond resolution: the exact
half when the count is even, otherwise the nearest even microsecond,
matching the round-half-to-even rule of timedelta true division. -/
def divRound2 (a : Int) : Int :=
  let q := a / 2
  if a % 2 = 0 then q
  else if q % 2 = 0 then q else q + 1

/-- Mirror of _add_point_from_visit: read the top candidate coordinate
under the inner guard that swallows missing keys and parse errors, then
parse the start and end instants and append one point at the midpoint
start + (end - start) / 2. -/
def _add_point_from_visit (v : VisitSeg) : List TimelinePoint :=
  match v.latLng.bind _parse_latlng with
  | none => []
  | some (la, lo) =>
    match v.startTime, v.endTime with
    | some s, some e => [⟨s + divRound2 (e - s), la, lo⟩]
    | _, _ => []

/-- Points contributed by one segment, after the per-segment exception
handling. -/
def segPoints : Segment → List TimelinePoint
  | .path es => processPathEntries es
  | .visit v => _add_point_from_visit v
  | .other => []

/-- Stable ascending insertion by instant: the new point goes after every
point whose instant is not greater, matching the stability of the Python
list sort. -/
def insertByTime (p : TimelinePoint) : List TimelinePoint → List TimelinePoint
  | [] => [p]
  | q :: qs =>
    if p.time_utc < q.time_utc then p :: q :: qs
    else q :: insertByTime p qs

/-- Model of list.sort with the instant as key: a stable ascending
insertion sort. -/
def sortByTime (l : List TimelinePoint) : List TimelinePoint :=
  l.foldl (fun acc p => insertByTime p acc) []

/-- Mirror of load_timeline_points: gather the points of every segment in
order, then sort ascending by instant. -/
def load_timeline_points (segs : List Segment) : List TimelinePoint :=
  sortByTime (segs.flatMap segPoints)

/-- Zero padding to at least two digits, as the Python 02d format. -/
def pad2 (n : Nat) : String :=
  if n < 10 then "0" ++ Nat.repr n else Nat.repr n

/-- Mirror of _format_tz_offset on an offset given in seconds: whole
minutes by truncation towards zero as the int conversion does, sign from
the minute count, then hours and minutes zero padded. -/
def _format_tz_offset (secs : Int) : String :=
  let totalMinutes := Int.tdiv secs 60
  let sign := if 0 ≤ totalMinutes then "+" else "-"
  let tm := totalMinutes.natAbs
  sign ++ pad2 (tm / 60) ++ ":" ++ pad2 (tm % 60)

/-- Mirror of the inner _deg_to_dms_rational: degrees, minutes and
centiseconds of arc by repeated truncation, each as a rational pair. All
truncated quantities are nonnegative, so the Python int conversion is the
floor. -/
def _deg_to_dms_rational (v : ℚ) : List (Int × Int) :=
  let degAbs := |v|
  let deg := ⌊degAbs⌋
  let minutesFloat := (degAbs - deg) * 60
  let minutes := ⌊minutesFloat⌋
  let seconds := (minutesFloat - minutes) * 60
  [(deg, 1), (minutes, 1), (⌊seconds * 100⌋, 100)]

/-- The slots of the piexif tag dictionary that the script reads or
writes, by group and tag name. Absent entries model absent tags. -/
structure ExifDict where
  exifDateTimeOriginal : Option String
  exifDateTimeDigitized : Option String
  zeroDateTime : Option String
  offsetTime : Option String
  offsetTimeOriginal : Option String
  offsetTimeDigitized : Option String
  gpsLatitudeRef : Option String
  gpsLatitude : Option (List (Int × Int))
  gpsLongitudeRef : Option String
  gpsLongitude : Option (List (Int × Int))
deriving DecidableEq, Repr

/-- Mirror of _write_gps: hemisphere letters from the sign and the
degree, minute, second rationals for both coordinates. -/
def _write_gps (e : ExifDict) (lat lon : ℚ) : ExifDict :=
  { e with
    gpsLatitudeRef := some (if 0 ≤ lat then "N" else "S")
    gpsLatitude := some (_deg_to_dms_rational lat)
    gpsLongitudeRef := some (if 0 ≤ lon then "E" else "W")
    gpsLongitude := some (_deg_to_dms_rational lon) }

/-- Decoder named by the specification: degrees plus minutes over sixty
plus seconds over three thousand six hundred, each rational read as
numerator over denominator. -/
def dmsToDegrees : List (Int × Int) → ℚ
  | [(dn, dd), (mn, md), (sn, sd)] =>
    (dn : ℚ) / (dd : ℚ) + ((mn : ℚ) / (md : ℚ)) / 60 + ((sn : ℚ) / (sd : ℚ)) / 3600
  | _ => 0

/-- Longitude read back from a tag dictionary, signed by the hemisphere
letter as the specification describes. -/
def decodeLon (e : ExifDict) : Option ℚ :=
  match e.gpsLongitude, e.gpsLongitudeRef with
  | some dms, some r => some (if r = "W" then -(dmsToDegrees dms) else dmsToDegrees dms)
  | _, _ => none

/-- A resolved pytz timezone at its interface: the UTC offset in seconds
it reports at a given instant and the formatted local wall clock string
it produces at that instant. -/
structure TzInfo where
  offsetSecondsAt : Int → Int
  localStringAt : Int → String

/-- Python truthiness of an optional tag value holding a list: present
and nonempty. -/
def truthyVal : Option (List (Int × Int)) → Bool
  | some l => !l.isEmpty
  | none => false

/-- Python truthiness of an optional byte string tag: present and
nonempty. -/
def truthyStr : Option String → Bool
  | some s => !s.isEmpty
  | none => false

/-- Mirror of update_photo. The collaborators enter as functions: tzAt
stands for the timezonefinder lookup returning a pytz zone or none, and
toUtc stands for strptime of the stored string followed by localization
to the camera zone and conversion to UTC. The boolean result is the
return value; the dictionary result is the tag state the call leaves
behind, which in apply mode is what gets persisted and in dry run mode is
discarded. -/
def update_photo (tzAt : ℚ → ℚ → Option TzInfo) (toUtc : String → Int)
    (overwriteGps : Bool) (photo : ExifDict) (tl : TimelinePoint) : Bool × ExifDict :=
  if !overwriteGps && truthyVal photo.gpsLatitude && truthyVal photo.gpsLongitude then
    (false, photo)
  else
    match photo.exifDateTimeOriginal with
    | none => (false, photo)
    | some s =>
      match tzAt tl.lat tl.lon with
      | none => (false, photo)
      | some tz =>
        let utc := toUtc s
        let offsetStr := _format_tz_offset (tz.offsetSecondsAt utc)
        let dtStr := tz.localStringAt utc
        let e1 : ExifDict :=
          { photo with
            exifDateTimeOriginal := some dtStr
            exifDateTimeDigitized := some dtStr
            zeroDateTime := some dtStr
            offsetTime := some offsetStr
            offsetTimeOriginal := some offsetStr
            offsetTimeDigitized := some offsetStr }
        (true, _write_gps e1 tl.lat tl.lon)

/-- Outcome of one iteration of the photo loop in main: a skip branch
that increments the skipped counter, an update that increments the
processed counter and carries the new tag state, or a false return from
update_photo, after which the loop touches neither counter. -/
inductive StepResult where
  | skippedEarly
  | updated (e : ExifDict)
  | silent
deriving DecidableEq

/-- One iteration of the photo loop in main: check the stored timestamp
is present and nonempty, resolve it to UTC, find the nearest timeline
point, apply the gap check, then hand over to update_photo. -/
def processPhoto (points : List TimelinePoint) (tzAt : ℚ → ℚ → Option TzInfo)
    (toUtc : String → Int) (maxGap : Int) (overwriteGps : Bool)
    (photo : ExifDict) : StepResult :=
  if !truthyStr photo.exifDateTimeOriginal then .skippedEarly
  else
    let ts := toUtc (photo.exifDateTimeOriginal.getD "")
    match find_nearest_timeline_point points ts with
    | none => .skippedEarly
    | some tl =>
      if maxGap < (tl.time_utc - ts).natAbs then .skippedEarly
      else
        match update_photo tzAt toUtc overwriteGps photo tl with
        | (true, e) => .updated e
        | (false, _) => .silent

/-- The tag state of a photo after its loop iteration: only an update
replaces it. -/
def stepExif (photo : ExifDict) : StepResult → ExifDict
  | .updated e => e
  | _ => photo

/-- The counter pair folded over the photo list by main, starting from
zero processed and zero skipped. -/
def runBatch (points : List TimelinePoint) (tzAt : ℚ → ℚ → Option TzInfo)
    (toUtc : String → Int) (maxGap : Int) (overwriteGps : Bool)
    (photos : List ExifDict) : Nat × Nat :=
  photos.foldl
    (fun acc photo =>
      match processPhoto points tzAt toUtc maxGap overwriteGps photo with
      | .skippedEarly => (acc.1, acc.2 + 1)
      | .updated _ => (acc.1 + 1, acc.2)
      | .silent => acc)
    (0, 0)

/-! Lemmas about the bisection index. -/

theorem bisect_le_length (keys : List Int) (x : Int) : bisect_left keys x ≤ keys.length := by
  induction keys with
  | nil => simp [bisect_left]
  | cons k ks ih =>
    simp only [bisect_left, List.length_cons]
    split
    · omega
    · omega

theorem bisect_lt_probe (keys : List Int) (x : Int) (j : Nat) (hj : j < keys.length)
    (h : j < bisect_left keys x) : keys[j] < x := by
  induction keys generalizing j with
  | nil => simp at hj
  | cons k ks ih =>
    by_cases hk : k < x
    · cases j with
      | zero => simpa using hk
      | succ j2 =>
        simp only [List.getElem_cons_succ]
        have h2 : j2 < bisect_left ks x := by
          simp [bisect_left, hk] at h
          omega
        exact ih j2 (by simpa using hj) h2
    · simp [bisect_left, hk] at h

theorem bisect_ge_probe (keys : List Int) (x : Int) (h : bisect_left keys x < keys.length) :
    x ≤ keys[bisect_left keys x] := by
  induction keys with
  | nil => simp [bisect_left] at h
  | cons k ks ih =>
    by_cases hk : k < x
    · have e : bisect_left (k :: ks) x = bisect_left ks x + 1 := by
        simp [bisect_left, hk]
      have h2 : bisect_left ks x < ks.length := by
        rw [e] at h
        simpa using h
      simp only [e, List.getElem_cons_succ]
      exact ih h2
    · have e : bisect_left (k :: ks) x = 0 := by
        simp [bisect_left, hk]
      simp only [e, List.getElem_cons_zero]
      omega

theorem bisect_eq (keys : List Int) (x : Int) (k : Nat) (hk : k ≤ keys.length)
    (h1 : ∀ j (hj : j < keys.length), j < k → keys[j] < x)
    (h2 : ∀ hkl : k < keys.length, x ≤ keys[k]) :
    bisect_left keys x = k := by
  rcases Nat.lt_trichotomy (bisect_left keys x) k with hlt | heq | hgt
  · have hb : bisect_left keys x < keys.length := lt_of_lt_of_le hlt hk
    have ha := h1 _ hb hlt
    have hc := bisect_ge_probe keys x hb
    omega
  · exact heq
  · have hkl : k < keys.length := lt_of_le_of_lt (Nat.le_refl k)
      (lt_of_lt_of_le hgt (bisect_le_length keys x))
    have ha := bisect_lt_probe keys x k hkl hgt
    have hb := h2 hkl
    omega

/-! Lemmas about the Python min over the candidate list. -/

theorem minCand_mem (ts : Int) (c : TimelinePoint) (cs : List TimelinePoint) :
    minCand ts c cs ∈ c :: cs := by
  induction cs generalizing c with
  | nil => simp [minCand]
  | cons q qs ih =>
    have step : minCand ts c (q :: qs) = minCand ts (nearer ts c q) qs := rfl
    have hcq : nearer ts c q = c ∨ nearer ts c q = q := by
      unfold nearer
      split
      · right; rfl
      · left; rfl
    rw [step]
    rcases List.mem_cons.mp (ih (nearer ts c q)) with he | hm
    · rcases hcq with h3 | h3
      · rw [he, h3]; simp
      · rw [he, h3]; simp
    · simp [List.mem_cons, Or.inr (Or.inr hm)]

theorem minCand_le (ts : Int) (c : TimelinePoint) (cs : List TimelinePoint) :
    ∀ q ∈ c :: cs, ((minCand ts c cs).time_utc - ts).natAbs ≤ (q.time_utc - ts).natAbs := by
  induction cs generalizing c with
  | nil =>
    intro q hq
    have : q = c := by simpa using hq
    rw [this]
    simp [minCand]
  | cons r rs ih =>
    intro q hq
    have step : minCand ts c (r :: rs) = minCand ts (nearer ts c r) rs := rfl
    have hle_c : ((nearer ts c r).time_utc - ts).natAbs ≤ (c.time_utc - ts).natAbs := by
      unfold nearer
      split
      · omega
      · omega
    have hle_r : ((nearer ts c r).time_utc - ts).natAbs ≤ (r.time_utc - ts).natAbs := by
      unfold nearer
      split
      · omega
      · omega
    have hhead := ih (nearer ts c r) (nearer ts c r) (List.mem_cons_self _ _)
    rw [step]
    rcases List.mem_cons.mp hq with he | hq2
    · rw [he]
      exact le_trans hhead hle_c
    · rcases List.mem_cons.mp hq2 with he2 | hq3
      · rw [he2]
        exact le_trans hhead hle_r
      · exact ih (nearer ts c r) q (List.mem_cons_of_mem _ hq3)

/-! Lemmas about the candidate list and the nearest lookup. -/

theorem candidateList_def (points : List TimelinePoint) (ts : Int) :
    candidateList points ts =
      (points[bisect_left (points.map (fun p => p.time_utc)) ts]?).toList ++
      (if 0 < bisect_left (points.map (fun p => p.time_utc)) ts then
        (points[bisect_left (points.map (fun p => p.time_utc)) ts - 1]?).toList
      else []) := rfl

theorem mem_points_of_mem_candidateList (points : List TimelinePoint) (ts : Int) :
    ∀ q ∈ candidateList points ts, q ∈ points := by
  intro q hq
  rw [candidateList_def] at hq
  rcases List.mem_append.mp hq with h | h
  · rcases Option.mem_toList.mp h with h2
    rcases List.getElem?_eq_some.mp h2 with ⟨hlt, he⟩
    rw [← he]
    exact List.getElem_mem hlt
  · by_cases h0 : 0 < bisect_left (points.map (fun p => p.time_utc)) ts
    · rw [if_pos h0] at h
      rcases Option.mem_toList.mp h with h2
      rcases List.getElem?_eq_some.mp h2 with ⟨hlt, he⟩
      rw [← he]
      exact List.getElem_mem hlt
    · rw [if_neg h0] at h
      simp at h

theorem candidateList_ne_nil (points : List TimelinePoint) (ts : Int) (h : points ≠ []) :
    candidateList points ts ≠ [] := by
  rw [candidateList_def]
  have hle : bisect_left (points.map (fun p => p.time_utc)) ts ≤ points.length := by
    have := bisect_le_length (points.map (fun p => p.time_utc)) ts
    simpa using this
  have hn : 0 < points.length := List.length_pos.mpr h
  by_cases hi : bisect_left (points.map (fun p => p.time_utc)) ts < points.length
  · rw [List.getElem?_eq_getElem hi]
    simp
  · have h0 : 0 < bisect_left (points.map (fun p => p.time_utc)) ts := by omega
    have h1 : bisect_left (points.map (fun p => p.time_utc)) ts - 1 < points.length := by omega
    rw [if_pos h0, List.getElem?_eq_getElem h1]
    simp

theorem find_nearest_eq_some (points : List TimelinePoint) (ts : Int) (h : points ≠ []) :
    ∃ p, find_nearest_timeline_point points ts = some p := by
  unfold find_nearest_timeline_point
  cases hc : candidateList points ts with
  | nil => exact absurd hc (candidateList_ne_nil points ts h)
  | cons c cs => exact ⟨minCand ts c cs, rfl⟩

theorem find_nearest_none_iff (points : List TimelinePoint) (ts : Int) :
    find_nearest_timeline_point points ts = none ↔ points = [] := by
  constructor
  · intro h
    by_contra hne
    obtain ⟨p, hp⟩ := find_nearest_eq_some points ts hne
    rw [h] at hp
    cases hp
  · intro h
    rw [h]
    rfl

theorem find_nearest_mem (points : List TimelinePoint) (ts : Int) (p : TimelinePoint)
    (h : find_nearest_timeline_point points ts = some p) : p ∈ points := by
  unfold find_nearest_timeline_point at h
  cases hc : candidateList points ts with
  | nil => rw [hc] at h; cases h
  | cons c cs =>
    rw [hc] at h
    have hp : minCand ts c cs = p := by
      simpa using h
    rw [← hp]
    exact mem_points_of_mem_candidateList points ts _ (hc ▸ minCand_mem ts c cs)

theorem sorted_times_mono (points : List TimelinePoint)
    (hs : points.Pairwise (fun a b => a.time_utc ≤ b.time_utc))
    (i j : Nat) (hi : i < points.length) (hj : j < points.length) (hij : i ≤ j) :
    points[i].time_utc ≤ points[j].time_utc := by
  rcases Nat.eq_or_lt_of_le hij with he | hl
  · subst he
    exact le_refl _
  · exact List.pairwise_iff_getElem.mp hs i j hi hj hl

theorem find_nearest_min (points : List TimelinePoint) (ts : Int)
    (hs : points.Pairwise (fun a b => a.time_utc ≤ b.time_utc))
    (p : TimelinePoint) (h : find_nearest_timeline_point points ts = some p) :
    ∀ q ∈ points, (p.time_utc - ts).natAbs ≤ (q.time_utc - ts).natAbs := by
  intro q hq
  obtain ⟨i, hi, hqi⟩ := List.mem_iff_getElem.mp hq
  have hklen : (points.map (fun r => r.time_utc)).length = points.length := by simp
  have hle : bisect_left (points.map (fun r => r.time_utc)) ts ≤ points.length := by
    have := bisect_le_length (points.map (fun r => r.time_utc)) ts
    omega
  obtain ⟨c, cs, hc⟩ : ∃ c cs, candidateList points ts = c :: cs := by
    cases hcl : candidateList points ts with
    | nil =>
      unfold find_nearest_timeline_point at h
      rw [hcl] at h
      cases h
    | cons c cs => exact ⟨c, cs, rfl⟩
  have hp : minCand ts c cs = p := by
    unfold find_nearest_timeline_point at h
    rw [hc] at h
    simpa using h
  have hmin : ∀ r ∈ candidateList points ts,
      (p.time_utc - ts).natAbs ≤ (r.time_utc - ts).natAbs := by
    rw [hc, ← hp]
    exact minCand_le ts c cs
  by_cases hcase : i < bisect_left (points.map (fun r => r.time_utc)) ts
  · have h0 : 0 < bisect_left (points.map (fun r => r.time_utc)) ts := by omega
    have hi1 : bisect_left (points.map (fun r => r.time_utc)) ts - 1 < points.length := by omega
    have hmemcand : points[bisect_left (points.map (fun r => r.time_utc)) ts - 1]
        ∈ candidateList points ts := by
      rw [candidateList_def]
      apply List.mem_append.mpr
      right
      rw [if_pos h0, List.getElem?_eq_getElem hi1]
      simp
    have hlt1 : points[bisect_left (points.map (fun r => r.time_utc)) ts - 1].time_utc < ts := by
      have hb := bisect_lt_probe (points.map (fun r => r.time_utc)) ts
        (bisect_left (points.map (fun r => r.time_utc)) ts - 1) (by omega) (by omega)
      simpa using hb
    have hle2 : points[i].time_utc ≤
        points[bisect_left (points.map (fun r => r.time_utc)) ts - 1].time_utc :=
      sorted_times_mono points hs i _ hi hi1 (by omega)
    have hq1 := hmin _ hmemcand
    rw [← hqi]
    omega
  · have hiidx : bisect_left (points.map (fun r => r.time_utc)) ts < points.length := by omega
    have hmemcand : points[bisect_left (points.map (fun r => r.time_utc)) ts]
        ∈ candidateList points ts := by
      rw [candidateList_def]
      apply List.mem_append.mpr
      left
      rw [List.getElem?_eq_getElem hiidx]
      simp
    have hge : ts ≤ points[bisect_left (points.map (fun r => r.time_utc)) ts].time_utc := by
      have hb := bisect_ge_probe (points.map (fun r => r.time_utc)) ts (by omega)
      simpa using hb
    have hle2 : points[bisect_left (points.map (fun r => r.time_utc)) ts].time_utc ≤
        points[i].time_utc :=
      sorted_times_mono points hs _ i hiidx hi (by omega)
    have hq1 := hmin _ hmemcand
    rw [← hqi]
    omega

theorem find_nearest_before (points : List TimelinePoint) (ts : Int)
    (h : ∀ q ∈ points, ts < q.time_utc) :
    find_nearest_timeline_point points ts = points.head? := by
  cases points with
  | nil => rfl
  | cons p rest =>
    have h0 : ¬ (p.time_utc < ts) := by
      have := h p (by simp)
      omega
    have hidx : bisect_left ((p :: rest).map (fun r => r.time_utc)) ts = 0 := by
      simp [bisect_left, h0]
    unfold find_nearest_timeline_point
    rw [candidateList_def, hidx]
    simp [minCand]

theorem find_nearest_after (points : List TimelinePoint) (ts : Int)
    (h : ∀ q ∈ points, q.time_utc < ts) :
    find_nearest_timeline_point points ts = points.getLast? := by
  cases hps : points with
  | nil => rfl
  | cons p rest =>
    have hn : 0 < points.length := by rw [hps]; simp
    have hidx : bisect_left (points.map (fun r => r.time_utc)) ts = points.length := by
      apply bisect_eq
      · simp
      · intro j hj hjlt
        have hj2 : j < points.length := by simpa using hj
        have := h points[j] (List.getElem_mem hj2)
        simpa using this
      · intro hkl
        simp at hkl
    have hnone : points[points.length]? = none := List.getElem?_eq_none (le_refl _)
    have hlast : points[points.length - 1]? = some points[points.length - 1] :=
      List.getElem?_eq_getElem (by omega)
    rw [← hps]
    unfold find_nearest_timeline_point
    rw [candidateList_def, hidx, hnone, if_pos hn, hlast]
    simp [minCand, List.getLast?_eq_getElem?, List.getElem?_eq_getElem (show points.length - 1 < points.length by omega)]

/-- C1: on a sorted index, find_nearest_timeline_point returns none exactly on the
empty index; any returned sample belongs to the index and minimises the absolute
time difference to the query over the whole index; a query below every sample
returns the first sample, a query above every sample returns the last sample, and
a query hitting a sample instant exactly returns a sample with that instant. -/
theorem c1_nearest_point_correct (points : List TimelinePoint) (ts : Int)
    (hs : points.Pairwise (fun a b => a.time_utc ≤ b.time_utc)) :
    (find_nearest_timeline_point points ts = none ↔ points = [])
    ∧ (∀ p, find_nearest_timeline_point points ts = some p →
        p ∈ points ∧ ∀ q ∈ points, (p.time_utc - ts).natAbs ≤ (q.time_utc - ts).natAbs)
    ∧ ((∀ q ∈ points, ts < q.time_utc) → find_nearest_timeline_point points ts = points.head?)
    ∧ ((∀ q ∈ points, q.time_utc < ts) → find_nearest_timeline_point points ts = points.getLast?)
    ∧ (∀ q ∈ points, q.time_utc = ts →
        ∃ p, find_nearest_timeline_point points ts = some p ∧ p.time_utc = ts) := by
  refine ⟨find_nearest_none_iff points ts, ?_,
    fun h => find_nearest_before points ts h, fun h => find_nearest_after points ts h, ?_⟩
  · intro p hp
    exact ⟨find_nearest_mem points ts p hp, find_nearest_min points ts hs p hp⟩
  · intro q hq hqts
    have hne : points ≠ [] := by
      intro he
      rw [he] at hq
      cases hq
    obtain ⟨p, hp⟩ := find_nearest_eq_some points ts hne
    refine ⟨p, hp, ?_⟩
    have := find_nearest_min points ts hs p hp q hq
    omega

/-- Witness for C1 at a two point index and a query below both samples. -/
theorem c1_witness :
    List.Pairwise (fun a b : TimelinePoint => a.time_utc ≤ b.time_utc)
      [⟨0, 1, 2⟩, ⟨10, 3, 4⟩]
    ∧ (∀ q ∈ ([⟨0, 1, 2⟩, ⟨10, 3, 4⟩] : List TimelinePoint), (-5 : Int) < q.time_utc)
    ∧ find_nearest_timeline_point [⟨0, 1, 2⟩, ⟨10, 3, 4⟩] (-5)
        = ([⟨0, 1, 2⟩, ⟨10, 3, 4⟩] : List TimelinePoint).head? :=
  ⟨by decide, by decide,
    (c1_nearest_point_correct [⟨0, 1, 2⟩, ⟨10, 3, 4⟩] (-5) (by decide)).2.2.1 (by decide)⟩

/-- Counterexample for C2: the query 5 is exactly equidistant between the samples
at instants 0 and 10, yet the search returns the later sample, not the earlier
indexed one. -/
theorem c2_counterexample :
    find_nearest_timeline_point [⟨0, 1, 2⟩, ⟨10, 3, 4⟩] 5 = some ⟨10, 3, 4⟩
    ∧ (⟨10, 3, 4⟩ : TimelinePoint).time_utc ≠ (⟨0, 1, 2⟩ : TimelinePoint).time_utc := by
  decide

/-- C2 amended: on an exact tie between two adjacent samples the search
deterministically returns the later indexed (right, larger instant) candidate,
because the candidate at the insertion index is listed first and Python min keeps
the first of equal keys. -/
theorem c2_tie_breaks_right (points : List TimelinePoint) (ts : Int)
    (hs : points.Pairwise (fun a b => a.time_utc ≤ b.time_utc))
    (i : Nat) (hi : i + 1 < points.length)
    (hlt : points[i].time_utc < ts)
    (heq : ts - points[i].time_utc = points[i + 1].time_utc - ts) :
    find_nearest_timeline_point points ts = some points[i + 1] := by
  have hgei : ts ≤ points[i + 1].time_utc := by omega
  have hidx : bisect_left (points.map (fun r => r.time_utc)) ts = i + 1 := by
    apply bisect_eq
    · simp
      omega
    · intro j hj hjlt
      have hj2 : j < points.length := by simpa using hj
      have hmono := sorted_times_mono points hs j i hj2 (by omega) (by omega)
      simp only [List.getElem_map]
      omega
    · intro hkl
      simp only [List.getElem_map]
      omega
  have hsome1 : points[i + 1]? = some points[i + 1] := List.getElem?_eq_getElem hi
  have hsome0 : points[i + 1 - 1]? = some points[i] := by
    simp [List.getElem?_eq_getElem (show i < points.length by omega)]
  unfold find_nearest_timeline_point
  rw [candidateList_def, hidx, hsome1, if_pos (by omega : 0 < i + 1), hsome0]
  have hno : ¬ ((points[i].time_utc - ts).natAbs < (points[i + 1].time_utc - ts).natAbs) := by
    omega
  simp [minCand, nearer, hno]

/-- Witness for the amended C2 at two samples with the query exactly in the
middle. -/
theorem c2_witness :
    List.Pairwise (fun a b : TimelinePoint => a.time_utc ≤ b.time_utc)
      [⟨0, 1, 2⟩, ⟨10, 3, 4⟩]
    ∧ 0 + 1 < ([⟨0, 1, 2⟩, ⟨10, 3, 4⟩] : List TimelinePoint).length
    ∧ find_nearest_timeline_point [⟨0, 1, 2⟩, ⟨10, 3, 4⟩] 5 = some ⟨10, 3, 4⟩ :=
  ⟨by decide, by decide,
    c2_tie_breaks_right [⟨0, 1, 2⟩, ⟨10, 3, 4⟩] 5 (by decide) 0 (by decide)
      (by decide) (by decide)⟩

/-- C3: a photograph with a stored original timestamp whose resolved UTC instant
lies strictly further than max_gap from every sample of the index is skipped by
the batch loop, and its tag state is left untouched. -/
theorem c3_far_photo_skipped (points : List TimelinePoint) (tzAt : ℚ → ℚ → Option TzInfo)
    (toUtc : String → Int) (maxGap : Int) (overwriteGps : Bool) (photo : ExifDict)
    (s : String) (hts : photo.exifDateTimeOriginal = some s) (hne : s ≠ "")
    (hgap : ∀ p ∈ points, maxGap < (p.time_utc - toUtc s).natAbs) :
    processPhoto points tzAt toUtc maxGap overwriteGps photo = .skippedEarly
    ∧ stepExif photo (processPhoto points tzAt toUtc maxGap overwriteGps photo) = photo := by
  have hie : s.isEmpty = false := by
    rw [Bool.eq_false_iff]
    intro hc
    exact hne ((String.isEmpty_iff s).mp hc)
  have htr : truthyStr photo.exifDateTimeOriginal = true := by
    rw [hts]
    simp [truthyStr, hie]
  have hgetD : photo.exifDateTimeOriginal.getD "" = s := by
    rw [hts]
    rfl
  have hmain : processPhoto points tzAt toUtc maxGap overwriteGps photo = .skippedEarly := by
    unfold processPhoto
    rw [htr, hgetD]
    cases hfn : find_nearest_timeline_point points (toUtc s) with
    | none => simp [hfn]
    | some tl =>
      have hmem := find_nearest_mem points (toUtc s) tl hfn
      have hg := hgap tl hmem
      simp [hfn, hg]
      intro hcon
      rw [Int.abs_eq_natAbs] at hcon
      omega
  refine ⟨hmain, ?_⟩
  rw [hmain]
  rfl

/-- Witness for C3: a single sample at instant 0 and a photo resolving to one
billion microseconds, far beyond a one minute gap. -/
theorem c3_witness :
    ((⟨some "2024:06:01 10:30:00", none, none, none, none, none,
        none, none, none, none⟩ : ExifDict).exifDateTimeOriginal
      = some "2024:06:01 10:30:00")
    ∧ ("2024:06:01 10:30:00" : String) ≠ ""
    ∧ (∀ p ∈ ([⟨0, 34, -118⟩] : List TimelinePoint),
        (60000000 : Int) < (p.time_utc - (fun _ : String => (1000000000 : Int)) "2024:06:01 10:30:00").natAbs)
    ∧ processPhoto [⟨0, 34, -118⟩] (fun _ _ => none) (fun _ => 1000000000) 60000000 false
        ⟨some "2024:06:01 10:30:00", none, none, none, none, none,
          none, none, none, none⟩ = .skippedEarly :=
  ⟨rfl, by decide, by decide,
    (c3_far_photo_skipped [⟨0, 34, -118⟩] (fun _ _ => none) (fun _ => 1000000000) 60000000 false
      ⟨some "2024:06:01 10:30:00", none, none, none, none, none, none, none, none, none⟩
      "2024:06:01 10:30:00" rfl (by decide) (by decide)).1⟩

/-- C4: on a whole number of minutes the offset formatter produces the sign from
the value followed by zero padded hours and minutes, and the three documented
examples hold. -/
theorem c4_offset_format (s : Int) (h : s % 60 = 0) :
    _format_tz_offset s =
      (if 0 ≤ s then "+" else "-") ++ pad2 (s.natAbs / 3600) ++ ":" ++ pad2 (s.natAbs / 60 % 60)
    ∧ _format_tz_offset (-28800) = "-08:00"
    ∧ _format_tz_offset 19800 = "+05:30"
    ∧ _format_tz_offset 0 = "+00:00" := by
  refine ⟨?_, by decide, by decide, by decide⟩
  obtain ⟨k, rfl⟩ : ∃ k, s = 60 * k := ⟨s / 60, by omega⟩
  have h1 : Int.tdiv (60 * k) 60 = k := by
    apply Int.mul_tdiv_cancel_left
    norm_num
  simp only [_format_tz_offset, h1]
  have e1 : (60 * k).natAbs = 60 * k.natAbs := by
    simp [Int.natAbs_mul]
  have e2 : (60 * k).natAbs / 3600 = k.natAbs / 60 := by
    rw [e1]
    omega
  have e3 : (60 * k).natAbs / 60 % 60 = k.natAbs % 60 := by
    rw [e1]
    omega
  rw [e2, e3]
  rcases le_or_lt 0 k with hk | hk
  · rw [if_pos hk, if_pos (by omega : (0 : Int) ≤ 60 * k)]
  · rw [if_neg (by omega : ¬ (0 : Int) ≤ k), if_neg (by omega : ¬ (0 : Int) ≤ 60 * k)]

/-- Witness for C4 at the half hour offset of nineteen thousand eight hundred
seconds. -/
theorem c4_witness :
    ((19800 : Int) % 60 = 0)
    ∧ (_format_tz_offset 19800 =
        (if (0 : Int) ≤ 19800 then "+" else "-") ++ pad2 ((19800 : Int).natAbs / 3600) ++ ":"
          ++ pad2 ((19800 : Int).natAbs / 60 % 60)
      ∧ _format_tz_offset (-28800) = "-08:00"
      ∧ _format_tz_offset 19800 = "+05:30"
      ∧ _format_tz_offset 0 = "+00:00") :=
  ⟨by decide, c4_offset_format 19800 (by decide)⟩

/-- C9 at the failing input: one photograph that already carries both GPS tags
and has a timestamp within the gap tolerance; update_photo returns false, the
loop increments neither counter, and the batch ends with zero processed plus
zero skipped for one photograph handled. -/
theorem c9_uncounted_skip :
    runBatch [⟨0, 34, -118⟩] (fun _ _ => none) (fun _ => 0) 3600000000 false
        [⟨some "2024:06:01 10:30:00", none, none, none, none, none,
          some "N", some [(34, 1)], some "W", some [(118, 1)]⟩]
      = (0, 0)
    ∧ ([⟨some "2024:06:01 10:30:00", none, none, none, none, none,
          some "N", some [(34, 1)], some "W", some [(118, 1)]⟩] : List ExifDict).length = 1
    ∧ (0 + 0 : Nat) ≠ 1 :=
  ⟨by decide, rfl, by decide⟩

/-- C10: without the overwrite flag the already tagged skip fires exactly when
both GPS coordinate tags are present with nonempty values, and otherwise a photo
with a stored timestamp and a resolvable timezone is rewritten: all three date
time fields, all three offset fields and the GPS fields are recomputed. -/
theorem c10_gps_presence_check (tzAt : ℚ → ℚ → Option TzInfo) (toUtc : String → Int)
    (photo : ExifDict) (tl : TimelinePoint) (tz : TzInfo) (s : String)
    (hts : photo.exifDateTimeOriginal = some s)
    (htz : tzAt tl.lat tl.lon = some tz) :
    ((truthyVal photo.gpsLatitude && truthyVal photo.gpsLongitude) = true →
      update_photo tzAt toUtc false photo tl = (false, photo))
    ∧ ((truthyVal photo.gpsLatitude && truthyVal photo.gpsLongitude) = false →
      update_photo tzAt toUtc false photo tl
        = (true, _write_gps
            { photo with
              exifDateTimeOriginal := some (tz.localStringAt (toUtc s))
              exifDateTimeDigitized := some (tz.localStringAt (toUtc s))
              zeroDateTime := some (tz.localStringAt (toUtc s))
              offsetTime := some (_format_tz_offset (tz.offsetSecondsAt (toUtc s)))
              offsetTimeOriginal := some (_format_tz_offset (tz.offsetSecondsAt (toUtc s)))
              offsetTimeDigitized := some (_format_tz_offset (tz.offsetSecondsAt (toUtc s))) }
            tl.lat tl.lon)) := by
  constructor
  · intro hcond
    unfold update_photo
    simp [hcond]
  · intro hcond
    unfold update_photo
    simp [hcond, hts, htz]

/-- Witness for C10: a photo carrying only a latitude tag is treated as untagged
and rewritten. -/
theorem c10_witness :
    ((truthyVal (some [((1 : Int), (1 : Int))]) && truthyVal none) = false)
    ∧ update_photo (fun _ _ => some ⟨fun _ => -28800, fun _ => "2024:01:01 04:00:00"⟩)
        (fun _ => 0) false
        ⟨some "x", none, none, none, none, none, none, some [(1, 1)], none, none⟩
        ⟨0, 1, 2⟩
      = (true, _write_gps
          ⟨some "2024:01:01 04:00:00", some "2024:01:01 04:00:00", some "2024:01:01 04:00:00",
            some (_format_tz_offset (-28800)), some (_format_tz_offset (-28800)),
            some (_format_tz_offset (-28800)), none, some [(1, 1)], none, none⟩
          1 2) :=
  ⟨by decide,
    (c10_gps_presence_check (fun _ _ => some ⟨fun _ => -28800, fun _ => "2024:01:01 04:00:00"⟩)
      (fun _ => 0)
      ⟨some "x", none, none, none, none, none, none, some [(1, 1)], none, none⟩
      ⟨0, 1, 2⟩ ⟨fun _ => -28800, fun _ => "2024:01:01 04:00:00"⟩ "x" rfl rfl).2 (by decide)⟩

/-! Lemmas about the stable insertion sort modelling list.sort. -/

theorem mem_insertByTime (p x : TimelinePoint) (l : List TimelinePoint) :
    x ∈ insertByTime p l ↔ x = p ∨ x ∈ l := by
  induction l with
  | nil => simp [insertByTime]
  | cons q qs ih =>
    unfold insertByTime
    split
    · simp [List.mem_cons]
    · simp only [List.mem_cons, ih]
      tauto

theorem pairwise_insertByTime (p : TimelinePoint) (l : List TimelinePoint)
    (h : l.Pairwise (fun a b => a.time_utc ≤ b.time_utc)) :
    (insertByTime p l).Pairwise (fun a b => a.time_utc ≤ b.time_utc) := by
  induction l with
  | nil => simp [insertByTime]
  | cons q qs ih =>
    rw [List.pairwise_cons] at h
    obtain ⟨hq, hqs⟩ := h
    unfold insertByTime
    split
    · next hlt =>
      rw [List.pairwise_cons]
      constructor
      · intro b hb
        rcases List.mem_cons.mp hb with he | hm
        · rw [he]
          omega
        · have := hq b hm
          omega
      · rw [List.pairwise_cons]
        exact ⟨hq, hqs⟩
    · next hnlt =>
      rw [List.pairwise_cons]
      constructor
      · intro b hb
        rcases (mem_insertByTime p b qs).mp hb with he | hm
        · rw [he]
          omega
        · exact hq b hm
      · exact ih hqs

theorem pairwise_foldl_insert (l acc : List TimelinePoint)
    (hacc : acc.Pairwise (fun a b => a.time_utc ≤ b.time_utc)) :
    (l.foldl (fun a p => insertByTime p a) acc).Pairwise
      (fun a b => a.time_utc ≤ b.time_utc) := by
  induction l generalizing acc with
  | nil => simpa using hacc
  | cons p ps ih =>
    simp only [List.foldl_cons]
    exact ih _ (pairwise_insertByTime p acc hacc)

/-- C8: the index returned by load_timeline_points is non decreasing in instant:
every pair of positions in order satisfies the instant ordering. The build is a
pure function, so the returned index is a value that is never mutated. -/
theorem c8_index_sorted (segs : List Segment) :
    (load_timeline_points segs).Pairwise (fun a b => a.time_utc ≤ b.time_utc) := by
  unfold load_timeline_points sortByTime
  exact pairwise_foldl_insert _ [] (by simp)

/-! Lemmas about the per segment exception scope of the build. -/

theorem processPathEntries_stops_at_bad (es1 : List PathEntry) (e : PathEntry)
    (es2 : List PathEntry)
    (h1 : ∀ x ∈ es1, (_add_point_from_path_entry x).isSome = true)
    (h2 : _add_point_from_path_entry e = none) :
    processPathEntries (es1 ++ e :: es2) = processPathEntries es1 := by
  induction es1 with
  | nil => simp [processPathEntries, h2]
  | cons a as ih =>
    have ha := h1 a (List.mem_cons_self a as)
    obtain ⟨p, hp⟩ := Option.isSome_iff_exists.mp ha
    simp only [List.cons_append, processPathEntries, hp]
    exact congrArg (fun l => p :: l) (ih (fun x hx => h1 x (List.mem_cons_of_mem a hx)))

/-- Counterexample for C6: a malformed coordinate in the first path entry of a
segment also discards the following well formed entry of the same segment, which
alone would contribute a sample. -/
theorem c6_counterexample :
    load_timeline_points [Segment.path [⟨"oops", some 0⟩, ⟨"10.0°, 20.0°", some 5⟩]] = []
    ∧ load_timeline_points [Segment.path [⟨"10.0°, 20.0°", some 5⟩]] = [⟨5, 10, 20⟩] := by
  constructor
  · norm_num +decide [load_timeline_points, segPoints, processPathEntries,
      _add_point_from_path_entry, _parse_latlng, parseFloat, trimChars, splitOnComma,
      digitsVal, sortByTime]
  · norm_num +decide [load_timeline_points, segPoints, processPathEntries,
      _add_point_from_path_entry, _parse_latlng, parseFloat, trimChars, splitOnComma,
      digitsVal, sortByTime, insertByTime, TimelinePoint.mk.injEq,
      show ('1').toNat = 49 from rfl, show ('2').toNat = 50 from rfl,
      show ('0').toNat = 48 from rfl]

/-- C6 amended: a malformed path entry aborts the remainder of its own segment,
keeping the entries parsed before it, while every other segment is processed
unchanged and the build always returns. -/
theorem c6_bad_entry_truncates_segment (segs1 segs2 : List Segment)
    (es1 es2 : List PathEntry) (e : PathEntry)
    (h1 : ∀ x ∈ es1, (_add_point_from_path_entry x).isSome = true)
    (h2 : _add_point_from_path_entry e = none) :
    load_timeline_points (segs1 ++ Segment.path (es1 ++ e :: es2) :: segs2)
      = load_timeline_points (segs1 ++ Segment.path es1 :: segs2) := by
  unfold load_timeline_points
  have hmid := processPathEntries_stops_at_bad es1 e es2 h1 h2
  simp only [List.flatMap_append, List.flatMap_cons, segPoints, hmid]

/-- Witness for the amended C6: one good entry before the malformed one and a
trailing unrelated segment. -/
theorem c6_witness :
    (∀ x ∈ ([⟨"10.0°, 20.0°", some 5⟩] : List PathEntry),
      (_add_point_from_path_entry x).isSome = true)
    ∧ _add_point_from_path_entry ⟨"oops", some 0⟩ = none
    ∧ load_timeline_points
        ([] ++ Segment.path ([⟨"10.0°, 20.0°", some 5⟩] ++ ⟨"oops", some 0⟩ :: []) :: [Segment.other])
      = load_timeline_points ([] ++ Segment.path [⟨"10.0°, 20.0°", some 5⟩] :: [Segment.other]) :=
  ⟨by decide, by decide,
    c6_bad_entry_truncates_segment [] [Segment.other] [⟨"10.0°, 20.0°", some 5⟩] []
      ⟨"oops", some 0⟩ (by decide) (by decide)⟩

/-- C5: a visit segment with a parseable top candidate coordinate and parseable
start and end instants contributes exactly one sample, carrying that coordinate
and the midpoint instant start plus half the duration; when the duration is an
even number of microseconds this is the exact arithmetic midpoint, and the
documented two hour example lands on the hour in the middle. -/
theorem c5_visit_single_midpoint (v : VisitSeg) (str : String) (la lo : ℚ) (s e : Int)
    (hll : v.latLng = some str) (hparse : _parse_latlng str = some (la, lo))
    (hst : v.startTime = some s) (hen : v.endTime = some e) :
    _add_point_from_visit v = [⟨s + divRound2 (e - s), la, lo⟩]
    ∧ ((e - s) % 2 = 0 → 2 * (s + divRound2 (e - s)) = s + e)
    ∧ _add_point_from_visit ⟨some "40.0°, -75.0°", some 1704103200000000, some 1704110400000000⟩
        = [⟨1704106800000000, 40, -75⟩] := by
  refine ⟨?_, ?_, ?_⟩
  · unfold _add_point_from_visit
    rw [hll]
    simp [hparse, hst, hen]
  · intro hpar
    simp only [divRound2, if_pos hpar]
    omega
  · norm_num +decide [_add_point_from_visit, _parse_latlng, parseFloat, trimChars,
      splitOnComma, digitsVal, divRound2, TimelinePoint.mk.injEq,
      show ('4').toNat = 52 from rfl, show ('5').toNat = 53 from rfl,
      show ('7').toNat = 55 from rfl, show ('0').toNat = 48 from rfl]

/-- Witness for C5 at the documented two hour visit. -/
theorem c5_witness :
    ((⟨some "40.0°, -75.0°", some 1704103200000000, some 1704110400000000⟩ : VisitSeg).latLng
        = some "40.0°, -75.0°")
    ∧ _parse_latlng "40.0°, -75.0°" = some (40, -75)
    ∧ _add_point_from_visit ⟨some "40.0°, -75.0°", some 1704103200000000, some 1704110400000000⟩
        = [⟨1704103200000000 + divRound2 (1704110400000000 - 1704103200000000), 40, -75⟩] :=
  ⟨rfl,
    by norm_num +decide [_parse_latlng, parseFloat, trimChars, splitOnComma, digitsVal,
      show ('4').toNat = 52 from rfl, show ('5').toNat = 53 from rfl,
      show ('7').toNat = 55 from rfl, show ('0').toNat = 48 from rfl],
    (c5_visit_single_midpoint
      ⟨some "40.0°, -75.0°", some 1704103200000000, some 1704110400000000⟩
      "40.0°, -75.0°" 40 (-75) 1704103200000000 1704110400000000 rfl
      (by norm_num +decide [_parse_latlng, parseFloat, trimChars, splitOnComma, digitsVal,
        show ('4').toNat = 52 from rfl, show ('5').toNat = 53 from rfl,
        show ('7').toNat = 55 from rfl, show ('0').toNat = 48 from rfl])
      rfl rfl).1⟩

/-! Lemmas for the degree, minute, second truncation bound. -/

theorem dms_truncation_bound (v : ℚ) :
    0 ≤ |v| - dmsToDegrees (_deg_to_dms_rational v)
    ∧ |v| - dmsToDegrees (_deg_to_dms_rational v) < 1 / 360000 := by
  have key : |v| - dmsToDegrees (_deg_to_dms_rational v)
      = (((|v| - ⌊|v|⌋) * 60 - ⌊(|v| - ⌊|v|⌋) * 60⌋) * 60 * 100
          - ⌊((|v| - ⌊|v|⌋) * 60 - ⌊(|v| - ⌊|v|⌋) * 60⌋) * 60 * 100⌋) / 360000 := by
    simp only [_deg_to_dms_rational, dmsToDegrees]
    push_cast
    ring
  rw [key]
  set u : ℚ := ((|v| - ⌊|v|⌋) * 60 - ⌊(|v| - ⌊|v|⌋) * 60⌋) * 60 * 100 with hu
  have h0 : (0 : ℚ) ≤ u - ⌊u⌋ := by
    have h := Int.floor_le u
    linarith
  have h1 : u - (⌊u⌋ : ℚ) < 1 := by
    have h := Int.lt_floor_add_one u
    linarith
  constructor
  · apply div_nonneg h0
    norm_num
  · linarith

/-- C7: writing a coordinate in the range minus one hundred eighty to one
hundred eighty through the GPS encoder and reading it back with the degree,
minute, second decoder signed by the hemisphere letter reproduces the value
within one three hundred sixty thousandth of a degree. -/
theorem c7_dms_roundtrip (photo : ExifDict) (v : ℚ) (h1 : -180 ≤ v) (h2 : v ≤ 180) :
    ∃ w, decodeLon (_write_gps photo 0 v) = some w ∧ |w - v| ≤ 1 / 360000 := by
  obtain ⟨hb0, hb1⟩ := dms_truncation_bound v
  have hdec : decodeLon (_write_gps photo 0 v) =
      some (if (if 0 ≤ v then "E" else "W") = "W" then
        -(dmsToDegrees (_deg_to_dms_rational v)) else dmsToDegrees (_deg_to_dms_rational v)) :=
    rfl
  rcases le_or_lt 0 v with hv | hv
  · rw [hdec, if_pos hv, if_neg (by decide : ¬ ("E" : String) = "W")]
    refine ⟨dmsToDegrees (_deg_to_dms_rational v), rfl, ?_⟩
    have habs : |v| = v := abs_of_nonneg hv
    rw [habs] at hb0 hb1
    rw [abs_sub_comm, abs_of_nonneg hb0]
    linarith
  · rw [hdec, if_neg (not_le.mpr hv), if_pos rfl]
    refine ⟨-(dmsToDegrees (_deg_to_dms_rational v)), rfl, ?_⟩
    have habs : |v| = -v := abs_of_neg hv
    rw [habs] at hb0 hb1
    have hle : -(dmsToDegrees (_deg_to_dms_rational v)) - v ≥ 0 := by linarith
    rw [abs_of_nonneg hle]
    linarith

/-- Witness for C7 at the coordinate five halves of a degree. -/
theorem c7_witness :
    ((-180 : ℚ) ≤ 5 / 2 ∧ (5 / 2 : ℚ) ≤ 180)
    ∧ ∃ w, decodeLon
        (_write_gps ⟨none, none, none, none, none, none, none, none, none, none⟩ 0 (5 / 2))
        = some w ∧ |w - 5 / 2| ≤ 1 / 360000 :=
  ⟨⟨by norm_num, by norm_num⟩,
    c7_dms_roundtrip ⟨none, none, none, none, none, none, none, none, none, none⟩ (5 / 2)
      (by norm_num) (by norm_num)⟩

end TimelineStamp
